import Mathlib

set_option maxRecDepth 8000

/-!
Verification of the ghorg clone-run engine specification against the source.

The definitions below are shallow embeddings of the Go source of the
repository (package cmd in the unnamed parts, package git in
internal/git and the unnamed parts).  Pure helpers become Lean
functions; filesystem and git side effects become explicit state
passing over association lists; Go panics and Go errors become Option
and Except values.  Where a definition follows the wording of the spec
rather than the source (because the code it describes is not part of
the sources, or because a refinement claim compares the two) its doc
comment says so explicitly.
-/

/-! ## Generic association lists (model of Go maps / keyed stores) -/

def lookupA {α : Type} [DecidableEq α] : List (α × String) → α → Option String
  | [], _ => none
  | (k, v) :: rest, key => if k = key then some v else lookupA rest key

def setA {α : Type} [DecidableEq α] : List (α × String) → α → String → List (α × String)
  | [], key, v => [(key, v)]
  | (k, w) :: rest, key, v =>
      if k = key then (k, v) :: rest else (k, w) :: setA rest key v

theorem lookupA_setA_same {α : Type} [DecidableEq α]
    (m : List (α × String)) (k : α) (v : String) :
    lookupA (setA m k v) k = some v := by
  induction m with
  | nil => simp [setA, lookupA]
  | cons p rest ih =>
      by_cases h : p.1 = k
      · simp [setA, h, lookupA]
      · simp [setA, h, lookupA, ih]

theorem lookupA_setA_other {α : Type} [DecidableEq α]
    (m : List (α × String)) (k k' : α) (v : String) (h : k' ≠ k) :
    lookupA (setA m k v) k' = lookupA m k' := by
  induction m with
  | nil => simp [setA, lookupA, Ne.symm h]
  | cons p rest ih =>
      by_cases hp : p.1 = k
      · simp [setA, hp, lookupA, Ne.symm h]
      · simp [setA, hp, lookupA, ih]

/-! ## trimCollisionFilename (cmd, unnamed/part_004)

Source:
```
func trimCollisionFilename(filename string) string {
    maxLen := 248
    if len(filename) > maxLen {
        return filename[:strings.LastIndex(filename[:maxLen], "_")]
    }
    return filename
}
```
Go strings are modelled as lists of characters (the inputs in question
are ASCII so byte indexing and character indexing agree).
`strings.LastIndex` returns -1 when the separator is absent, and a Go
slice expression with a negative upper bound panics; the panic is
modelled as `none`.
-/

/-- Index of the last occurrence of a character, as in strings.LastIndex;
`none` models the Go return value -1. -/
def lastIdx : List Char → Char → Option Nat
  | [], _ => none
  | a :: rest, c =>
      match lastIdx rest c with
      | some i => some (i + 1)
      | none => if a = c then some 0 else none

/-- Model of trimCollisionFilename.  `none` models the runtime panic of
the slice expression when LastIndex returns -1. -/
def trimCollisionFilename (filename : List Char) : Option (List Char) :=
  let maxLen := 248
  if filename.length > maxLen then
    match lastIdx (filename.take maxLen) '_' with
    | some i => some (filename.take i)
    | none => none
  else some filename

/-! ## End-of-run exit code (CloneAllRepos, cmd, unnamed/part_004) -/

/-- Value of a list of decimal digits, or `none` if the list is empty or
contains a non-digit. -/
def digitsVal : List Char → Option Nat
  | [] => none
  | l =>
      l.foldl
        (fun acc c =>
          match acc with
          | none => none
          | some n => if c.isDigit then some (n * 10 + (c.toNat - 48)) else none)
        (some 0)

/-- Model of strconv.Atoi as used by CloneAllRepos on the exit-code
environment variables: optional sign followed by decimal digits. -/
def atoi (s : String) : Option Int :=
  match s.toList with
  | [] => none
  | '+' :: rest => (digitsVal rest).map Int.ofNat
  | '-' :: rest => (digitsVal rest).map (fun n => -(n : Int))
  | l => (digitsVal l).map Int.ofNat

/-- Exit code produced at the end of CloneAllRepos (unnamed/part_004):
first, if GHORG_EXIT_CODE_ON_CLONE_INFOS is not the string "0" and there
are info events, the process exits with that value (1 if unparsable);
otherwise, if there are error events, it exits with
GHORG_EXIT_CODE_ON_CLONE_ISSUES (1 if unparsable); otherwise the run
ends normally with exit code 0. -/
def cloneRunExitCode (cloneInfosCount cloneErrorsCount : Nat)
    (infoEnv issuesEnv : String) : Int :=
  if infoEnv ≠ "0" ∧ 0 < cloneInfosCount then
    match atoi infoEnv with
    | none => 1
    | some c => c
  else if 0 < cloneErrorsCount then
    match atoi issuesEnv with
    | none => 1
    | some c => c
  else 0

/-! Example sanity checks on concrete values. -/

example : atoi "7" = some 7 := by decide
example : atoi "0" = some 0 := by decide
example : cloneRunExitCode 0 0 "0" "1" = 0 := by decide
example : cloneRunExitCode 1 0 "7" "1" = 7 := by decide
example : cloneRunExitCode 0 1 "0" "9" = 9 := by decide
example : cloneRunExitCode 1 1 "7" "1" = 7 := by decide
example : trimCollisionFilename ('a' :: []) = some ('a' :: []) := by decide

/-! ## Claims C7 and C9 -/

/-- C7: the claim states that trimCollisionFilename is total and that the
slice indices it computes are always in bounds.  This is false: for a
filename longer than 248 characters containing no underscore in its
first 248 characters, strings.LastIndex returns -1 and the Go slice
expression filename[:-1] panics.  Concretely, 249 copies of the letter
a make the function panic (modelled as `none`). -/
theorem claim_C7_counterexample :
    trimCollisionFilename (List.replicate 249 'a') = none := by decide

/-- C7 (amended): trimCollisionFilename returns the filename unchanged
when its length is at most 248; when the length exceeds 248 and an
underscore occurs within the first 248 characters it returns the prefix
ending just before the last such underscore; when no underscore occurs
there, the computed slice index is -1 and the function panics. -/
theorem claim_C7_amended (s : List Char) :
    (s.length ≤ 248 → trimCollisionFilename s = some s) ∧
    (248 < s.length →
      trimCollisionFilename s = (lastIdx (s.take 248) '_').map fun i => s.take i) := by
  constructor
  · intro h
    simp [trimCollisionFilename, Nat.not_lt.mpr h]
  · intro h
    cases h' : lastIdx (s.take 248) '_' <;> simp [trimCollisionFilename, h, h']

theorem claim_C7_amended_witness :
    trimCollisionFilename (List.replicate 249 '_' ) =
      (lastIdx ((List.replicate 249 '_').take 248) '_').map
        fun i => (List.replicate 249 '_').take i :=
  (claim_C7_amended (List.replicate 249 '_')).2 (by decide)

/-- C9: the claim states that with only info events the exit code equals
the configured exit_code_on_clone_infos and that with any error event
the exit code equals exit_code_on_clone_issues.  The second half is
false: the info-exit branch runs first, so with one info event, one
error event, exit_code_on_clone_infos set to 7 and
exit_code_on_clone_issues set to 1, the process exits with 7, not 1. -/
theorem claim_C9_counterexample :
    cloneRunExitCode 1 1 "7" "1" = 7 ∧ (7 : Int) ≠ 1 := by decide

/-- C9 (amended): with info events and a nonzero configured info exit
code, the process exits with the info exit code even when error events
were also recorded; with only info events the exit code equals the
configured info exit code; with error events the exit code equals the
configured issues exit code provided there are no info events or the
configured info exit code is the string 0. -/
theorem claim_C9_amended (infos errors : Nat) (infoEnv issuesEnv : String)
    (ci cs : Int) (hci : atoi infoEnv = some ci) (hcs : atoi issuesEnv = some cs) :
    (0 < infos → infoEnv ≠ "0" →
      cloneRunExitCode infos errors infoEnv issuesEnv = ci) ∧
    (errors = 0 → 0 < infos →
      cloneRunExitCode infos errors infoEnv issuesEnv = ci) ∧
    (0 < errors → (infos = 0 ∨ infoEnv = "0") →
      cloneRunExitCode infos errors infoEnv issuesEnv = cs) := by
  refine ⟨?_, ?_, ?_⟩
  · intro hi hne
    simp [cloneRunExitCode, hne, hi, hci]
  · intro he hi
    by_cases hz : infoEnv = "0"
    · subst hz
      have h0 : atoi "0" = some 0 := by decide
      rw [h0] at hci
      have : ci = 0 := by
        cases hci
        rfl
      simp [cloneRunExitCode, he, this]
    · simp [cloneRunExitCode, hz, hi, hci]
  · intro he hor
    rcases hor with h0 | hz
    · subst h0
      simp [cloneRunExitCode, he, hcs]
    · subst hz
      simp [cloneRunExitCode, he, hcs]

theorem claim_C9_amended_witness :
    cloneRunExitCode 2 0 "7" "1" = 7 :=
  (claim_C9_amended 2 0 "7" "1" 7 1 (by decide) (by decide)).2.1 rfl (by decide)

/-! ## Reconciler / pruner (cmd, unnamed/part_004)

The filesystem walk, the normalised-path comparison and the prune loop
are embedded below.  Strings stay ASCII so Go byte indexing and
character indexing agree; strings.HasPrefix, filepath.Join and the
separator normalisation are given explicit character-list models.
-/

/-- Model of strings.HasPrefix (character-wise). -/
def goStartsWithL : List Char → List Char → Bool
  | _, [] => true
  | [], _ :: _ => false
  | a :: s, b :: p => a = b && goStartsWithL s p

def goStartsWith (s p : String) : Bool := goStartsWithL s.toList p.toList

/-- Split a path into its slash-separated segments, keeping nonempty
segments only. -/
def splitSegs : List Char → List Char → List String
  | [], cur => [String.mk cur.reverse]
  | c :: rest, cur =>
      if c = '/' then String.mk cur.reverse :: splitSegs rest []
      else splitSegs rest (c :: cur)

def splitSlash (s : String) : List String :=
  (splitSegs s.toList []).filter (fun seg => seg ≠ "")

/-- Lexical cleaning of an absolute path, as filepath.Clean does inside
filepath.Join: dot segments vanish and dot-dot segments pop the
previous segment (or vanish at the root). -/
def cleanAbs : List String → List String → List String
  | [], acc => acc.reverse
  | c :: rest, acc =>
      if c = "." then cleanAbs rest acc
      else if c = ".." then cleanAbs rest acc.tail
      else cleanAbs rest (c :: acc)

def joinSegs : List String → String
  | [] => ""
  | [s] => s
  | s :: rest => s ++ "/" ++ joinSegs rest

/-- Model of filepath.Join(base, rel) for an absolute base, including
the Clean step. -/
def goJoin (base rel : String) : String :=
  "/" ++ joinSegs (cleanAbs (splitSlash base ++ splitSlash rel) [])

/-- The fields of scm.Repo that the pruner and the collision logic
consult. -/
structure CmdRepo where
  name : String
  path : String
  isWiki : Bool
  isGitLabSnippet : Bool
deriving DecidableEq, Repr

/-- Path normalisation used by sliceContainsNamedRepo: drop one leading
slash, then turn every backslash into a forward slash. -/
def dropLeadSlash : List Char → List Char
  | '/' :: rest => rest
  | l => l

def normalizePath (s : String) : String :=
  String.mk ((dropLeadSlash s.toList).map fun c => if c = '\\' then '/' else c)

/-- Model of sliceContainsNamedRepo (unnamed/part_004): the walked
relative path matches some kept Repo when the normalised forms are
equal. -/
def sliceContainsNamedRepo (haystack : List CmdRepo) (needle : String) : Bool :=
  haystack.any fun r => normalizePath r.path = normalizePath needle

/-- One directory seen by the walk: its relative path below the clone
root and its .git child, if any (`some b` means a .git entry exists and
`b` tells whether it is a directory). -/
structure LocalDir where
  rel : String
  gitChild : Option Bool
deriving DecidableEq, Repr

/-- Model of isGitRepository (unnamed/part_004): os.Stat on the .git
child must succeed and report a directory. -/
def isGitRepository (d : LocalDir) : Bool := d.gitChild = some true

/-- Follows the claim wording (spec invariant 4) for comparison with
the source: a directory would be a clone when it merely contains a .git
child, directory or file. -/
def specHasGitChild (d : LocalDir) : Bool := d.gitChild.isSome

/-- Model of getRelativePathRepositories: the walk yields the relative
path of every directory whose .git child passes isGitRepository. -/
def getRelativePathRepositories (fs : List LocalDir) : List String :=
  (fs.filter isGitRepository).map fun d => d.rel

structure PruneOutcome where
  deleted : List String
  count : Nat
  fatal : Bool
  promptsUsed : Nat
deriving DecidableEq, Repr

/-- Loop body of pruneRepos (unnamed/part_004).  `agrees` is the
userAgreesToDelete flag, `i` indexes the interactive answers consumed
so far; a failed containment check aborts the run (fatal) on the spot,
deletions already performed staying performed. -/
def pruneAux (root : String) (cloneTargets : List CmdRepo) (noConfirm : Bool)
    (ans : Nat → Bool) : List String → Bool → Nat → PruneOutcome
  | [], _, _ => ⟨[], 0, false, 0⟩
  | rel :: rest, agrees, i =>
      let absPath := goJoin root rel
      if !(goStartsWith absPath root) then ⟨[], 0, true, 0⟩
      else if agrees && !(sliceContainsNamedRepo cloneTargets rel) then
        if noConfirm then
          let o := pruneAux root cloneTargets noConfirm ans rest true i
          ⟨absPath :: o.deleted, o.count + 1, o.fatal, o.promptsUsed⟩
        else if ans i then
          let o := pruneAux root cloneTargets noConfirm ans rest true (i + 1)
          ⟨absPath :: o.deleted, o.count + 1, o.fatal, o.promptsUsed + 1⟩
        else
          let o := pruneAux root cloneTargets noConfirm ans rest false (i + 1)
          ⟨o.deleted, o.count, o.fatal, o.promptsUsed + 1⟩
      else pruneAux root cloneTargets noConfirm ans rest agrees i

/-- Model of pruneRepos: walk results in, deletions and count out. -/
def pruneRepos (root : String) (cloneTargets : List CmdRepo)
    (walked : List String) (noConfirm : Bool) (ans : Nat → Bool) : PruneOutcome :=
  pruneAux root cloneTargets noConfirm ans walked true 0

example :
    (pruneRepos "/c" [] ["a", "b"] true (fun _ => false)).count = 2 := by decide
example :
    (pruneRepos "/c" [⟨"a", "a", false, false⟩] ["a", "b"] true (fun _ => false)).count
      = 1 := by decide

theorem pruneAux_deleted_safe (root : String) (targets : List CmdRepo)
    (nc : Bool) (ans : Nat → Bool) :
    ∀ (walked : List String) (agrees : Bool) (i : Nat),
      ∀ p ∈ (pruneAux root targets nc ans walked agrees i).deleted,
        goStartsWith p root = true := by
  intro walked
  induction walked with
  | nil => intro agrees i p hp; simp [pruneAux] at hp
  | cons rel rest ih =>
      intro agrees i p hp
      simp only [pruneAux] at hp
      by_cases h1 : goStartsWith (goJoin root rel) root
      · simp only [h1, Bool.not_true, Bool.false_eq_true, if_false] at hp
        by_cases h2 : agrees && !(sliceContainsNamedRepo targets rel)
        · simp only [h2, if_true] at hp
          by_cases h3 : nc
          · rw [if_pos h3] at hp
            simp only [List.mem_cons] at hp
            rcases hp with hp | hp
            · exact hp ▸ h1
            · exact ih true i p hp
          · rw [if_neg h3] at hp
            by_cases h4 : ans i
            · simp only [h4, if_true, List.mem_cons] at hp
              rcases hp with hp | hp
              · exact hp ▸ h1
              · exact ih true (i + 1) p hp
            · simp only [h4, Bool.false_eq_true, if_false] at hp
              exact ih false (i + 1) p hp
        · simp only [h2, Bool.false_eq_true, if_false] at hp
          exact ih agrees i p hp
      · simp only [Bool.not_eq_true] at h1
        simp only [h1, Bool.not_false, if_true, List.not_mem_nil] at hp

theorem pruneAux_fatal_free (root : String) (targets : List CmdRepo)
    (nc : Bool) (ans : Nat → Bool) :
    ∀ (walked : List String) (agrees : Bool) (i : Nat),
      (∀ rel ∈ walked, goStartsWith (goJoin root rel) root = true) →
      (pruneAux root targets nc ans walked agrees i).fatal = false := by
  intro walked
  induction walked with
  | nil => intro agrees i _; simp [pruneAux]
  | cons rel rest ih =>
      intro agrees i hsafe
      have h1 : goStartsWith (goJoin root rel) root = true :=
        hsafe rel (List.mem_cons_self rel rest)
      have hrest : ∀ r ∈ rest, goStartsWith (goJoin root r) root = true :=
        fun r hr => hsafe r (List.mem_cons_of_mem rel hr)
      simp only [pruneAux, h1, Bool.not_true, Bool.false_eq_true, if_false]
      by_cases h2 : agrees && !(sliceContainsNamedRepo targets rel)
      · rw [if_pos h2]
        by_cases h3 : nc
        · rw [if_pos h3]
          exact ih true i hrest
        · rw [if_neg h3]
          by_cases h4 : ans i
          · rw [if_pos h4]
            exact ih true (i + 1) hrest
          · rw [if_neg h4]
            exact ih false (i + 1) hrest
      · rw [if_neg h2]
        exact ih agrees i hrest

/-- C3: every path the pruner deletes begins with the clone root, in any
mode, for any walk result and any interactive answers; and when every
candidate passes the containment check the run does not abort.  The
fatal abort fires at the first candidate whose joined absolute path
fails the check, before that candidate is deleted. -/
theorem claim_C3_prune_containment (root : String) (targets : List CmdRepo)
    (walked : List String) (nc : Bool) (ans : Nat → Bool) :
    (∀ p ∈ (pruneRepos root targets walked nc ans).deleted,
        goStartsWith p root = true) ∧
    ((∀ rel ∈ walked, goStartsWith (goJoin root rel) root = true) →
        (pruneRepos root targets walked nc ans).fatal = false) :=
  ⟨pruneAux_deleted_safe root targets nc ans walked true 0,
   pruneAux_fatal_free root targets nc ans walked true 0⟩

theorem claim_C3_prune_containment_witness :
    goStartsWith "/c/b" "/c" = true ∧
    (pruneRepos "/c" [] ["b"] true (fun _ => true)).fatal = false :=
  ⟨(claim_C3_prune_containment "/c" [] ["b"] true (fun _ => true)).1 "/c/b" (by decide),
   (claim_C3_prune_containment "/c" [] ["b"] true (fun _ => true)).2 (by decide)⟩

/-- C4: the claim says a directory is a prune candidate when it contains
a .git child that is a directory OR a file.  The source requires a
directory: isGitRepository stats the .git child and demands IsDir, so a
directory whose .git child is a file (submodule pointer form) is never
walked as a clone and never pruned.  With one local directory holding a
.git file and an empty remote set, a no-confirm prune deletes nothing,
while the claim counts one candidate. -/
theorem claim_C4_counterexample :
    (pruneRepos "/c" [] (getRelativePathRepositories [⟨"a", some false⟩]) true
        (fun _ => true)).count = 0 ∧
    (([⟨"a", some false⟩] : List LocalDir).filter fun d =>
        specHasGitChild d && !(sliceContainsNamedRepo [] d.rel)).length = 1 := by
  decide

theorem pruneAux_noconfirm_count (root : String) (targets : List CmdRepo)
    (ans : Nat → Bool) :
    ∀ (walked : List String) (i : Nat),
      (∀ rel ∈ walked, goStartsWith (goJoin root rel) root = true) →
      (pruneAux root targets true ans walked true i).count
        = (walked.filter fun rel => !(sliceContainsNamedRepo targets rel)).length := by
  intro walked
  induction walked with
  | nil => intro i _; simp [pruneAux]
  | cons rel rest ih =>
      intro i hsafe
      have h1 : goStartsWith (goJoin root rel) root = true :=
        hsafe rel (List.mem_cons_self rel rest)
      have hrest : ∀ r ∈ rest, goStartsWith (goJoin root r) root = true :=
        fun r hr => hsafe r (List.mem_cons_of_mem rel hr)
      simp only [pruneAux, h1, Bool.not_true, Bool.false_eq_true, if_false]
      by_cases h2 : sliceContainsNamedRepo targets rel
      · simp [h2, List.filter_cons, ih i hrest]
      · simp [h2, List.filter_cons, ih i hrest]

theorem length_filter_walk (fs : List LocalDir) (q : String → Bool) :
    (((fs.filter isGitRepository).map fun d => d.rel).filter q).length
      = (fs.filter fun d => isGitRepository d && q d.rel).length := by
  induction fs with
  | nil => rfl
  | cons d rest ih =>
      by_cases h : isGitRepository d
      · by_cases h2 : q d.rel <;>
          simp [List.filter_cons, h, h2, ih]
      · simp [List.filter_cons, h, ih]

/-- C4 (amended): a local directory is a prune candidate iff its .git
child is a directory (the file form is not treated as a clone) and its
normalised relative path matches no kept Repo; a no-confirm prune
deletes exactly the candidates, so pruneCount equals their number
(assuming every joined candidate path passes the containment check). -/
theorem claim_C4_amended (root : String) (targets : List CmdRepo)
    (ans : Nat → Bool) (fs : List LocalDir)
    (hsafe : ∀ d ∈ fs, goStartsWith (goJoin root d.rel) root = true) :
    (pruneRepos root targets (getRelativePathRepositories fs) true ans).count
      = (fs.filter fun d =>
          isGitRepository d && !(sliceContainsNamedRepo targets d.rel)).length := by
  rw [pruneRepos, getRelativePathRepositories,
    pruneAux_noconfirm_count root targets ans _ 0 ?hs]
  · exact length_filter_walk fs fun rel => !(sliceContainsNamedRepo targets rel)
  case hs =>
    intro rel hrel
    rcases List.mem_map.mp hrel with ⟨d, hd, rfl⟩
    exact hsafe d (List.mem_filter.mp hd).1

theorem claim_C4_amended_witness :
    (pruneRepos "/c" [] (getRelativePathRepositories
        [⟨"a", some true⟩, ⟨"b", some false⟩, ⟨"d", none⟩]) true (fun _ => true)).count
      = (([⟨"a", some true⟩, ⟨"b", some false⟩, ⟨"d", none⟩] : List LocalDir).filter
          fun d => isGitRepository d && !(sliceContainsNamedRepo [] d.rel)).length :=
  claim_C4_amended "/c" [] (fun _ => true)
    [⟨"a", some true⟩, ⟨"b", some false⟩, ⟨"d", none⟩] (by decide)

/-- Length of the run of consecutive yes answers starting at prompt
index `start`, capped at the given bound. -/
def leadingTrue (ans : Nat → Bool) : Nat → Nat → Nat
  | _, 0 => 0
  | start, n + 1 => if ans start then leadingTrue ans (start + 1) n + 1 else 0

theorem pruneAux_declined (root : String) (targets : List CmdRepo)
    (ans : Nat → Bool) :
    ∀ (walked : List String) (i : Nat),
      (pruneAux root targets false ans walked false i).deleted = [] ∧
      (pruneAux root targets false ans walked false i).count = 0 ∧
      (pruneAux root targets false ans walked false i).promptsUsed = 0 := by
  intro walked
  induction walked with
  | nil => intro i; simp [pruneAux]
  | cons rel rest ih =>
      intro i
      by_cases h1 : goStartsWith (goJoin root rel) root
      · simp only [pruneAux, h1, Bool.not_true, Bool.false_eq_true, if_false,
          Bool.false_and, Bool.false_eq_true, if_false]
        exact ih i
      · simp only [Bool.not_eq_true] at h1
        simp [pruneAux, h1]

theorem pruneAux_interactive (root : String) (targets : List CmdRepo)
    (ans : Nat → Bool) :
    ∀ (walked : List String) (i : Nat),
      (∀ rel ∈ walked, goStartsWith (goJoin root rel) root = true) →
      (pruneAux root targets false ans walked true i).deleted
        = ((walked.filter fun rel => !(sliceContainsNamedRepo targets rel)).take
            (leadingTrue ans i
              (walked.filter fun rel =>
                !(sliceContainsNamedRepo targets rel)).length)).map (goJoin root) := by
  intro walked
  induction walked with
  | nil => intro i _; simp [pruneAux]
  | cons rel rest ih =>
      intro i hsafe
      have h1 : goStartsWith (goJoin root rel) root = true :=
        hsafe rel (List.mem_cons_self rel rest)
      have hrest : ∀ r ∈ rest, goStartsWith (goJoin root r) root = true :=
        fun r hr => hsafe r (List.mem_cons_of_mem rel hr)
      simp only [pruneAux, h1, Bool.not_true, Bool.false_eq_true, if_false]
      by_cases h2 : sliceContainsNamedRepo targets rel
      · simp [h2, List.filter_cons, ih i hrest]
      · by_cases h4 : ans i
        · simp [h2, h4, List.filter_cons, leadingTrue, ih (i + 1) hrest]
        · simp [h2, h4, List.filter_cons, leadingTrue,
            (pruneAux_declined root targets ans rest (i + 1)).1]

/-- C8: in interactive prune mode the deleted candidates are exactly the
not-found candidates answered by the leading run of yes answers: the
first answer other than yes stops all further prompts and deletions for
the rest of the run.  (Assumes every candidate passes the containment
check, as the walk guarantees.) -/
theorem claim_C8_interactive_stop (root : String) (targets : List CmdRepo)
    (walked : List String) (ans : Nat → Bool)
    (hsafe : ∀ rel ∈ walked, goStartsWith (goJoin root rel) root = true) :
    (pruneRepos root targets walked false ans).deleted
      = ((walked.filter fun rel => !(sliceContainsNamedRepo targets rel)).take
          (leadingTrue ans 0
            (walked.filter fun rel =>
              !(sliceContainsNamedRepo targets rel)).length)).map (goJoin root) :=
  pruneAux_interactive root targets ans walked 0 hsafe

theorem claim_C8_interactive_stop_witness :
    (pruneRepos "/c" [] ["a", "b", "d"] false (fun n => n == 0)).deleted
      = (((["a", "b", "d"] : List String).filter
            fun rel => !(sliceContainsNamedRepo [] rel)).take
          (leadingTrue (fun n => n == 0) 0
            ((["a", "b", "d"] : List String).filter
              fun rel => !(sliceContainsNamedRepo [] rel)).length)).map (goJoin "/c") :=
  claim_C8_interactive_stop "/c" [] ["a", "b", "d"] (fun n => n == 0) (by decide)

example :
    (pruneRepos "/c" [] ["a", "b", "d"] false (fun n => n == 0)).deleted
      = ["/c/a"] := by decide

/-! ## Git backend model (internal/git/sync.go and unnamed/part_002)

A repository on disk is a ref store plus a worktree.  Ref names are
structured: the sync code only ever builds names of the two forms
refs/heads/<branch> and refs/remotes/origin/<branch>, which are
injective and disjoint as strings, so the key type mirrors them with
two constructors.  The remote is a map from branch name to advertised
head commit; fetching a branch copies that commit into the local
remote-tracking ref.  Reachability between commits is a fixed relation
carried by the state, taken reflexively.
-/

inductive RefKey where
  | head (branch : String)
  | remoteOrigin (branch : String)
deriving DecidableEq, Repr

inductive GitEffect where
  | fetch (branch : String)
  | merge
  | refUpdate (key : RefKey)
deriving DecidableEq, Repr

structure GitState where
  refs : List (RefKey × String)
  headBranch : String
  worktreeRev : String
  dirty : Bool
  originURL : Option String
  remoteHeads : List (String × String)
  ancestry : List (String × String)
deriving DecidableEq, Repr

/-- Commit `a` is reachable from commit `b` (so `b` can fast-forward to
any `c` with `isAncestor b c`). -/
def isAncestor (st : GitState) (a b : String) : Bool :=
  a == b || st.ancestry.contains (a, b)

/-- Model of GitClient.MergeFastForward (subprocess backend, the git
merge --ff-only call): succeeds without movement when the remote head
is already reachable from the current head, fast-forwards when the
current head is an ancestor of the remote head, and errors otherwise,
leaving every ref in place. -/
def mergeFFOnly (st : GitState) (b : String) : GitState × Bool :=
  match lookupA st.refs (RefKey.remoteOrigin b),
        lookupA st.refs (RefKey.head st.headBranch) with
  | some h, some c =>
      if isAncestor st h c then (st, true)
      else if isAncestor st c h then
        ({ st with refs := setA st.refs (RefKey.head st.headBranch) h,
                   worktreeRev := h }, true)
      else (st, false)
  | _, _ => (st, false)

/-- Model of goGitClient.MergeFastForward (library backend,
unnamed/part_002): it resolves refs/remotes/origin/<branch> and then
hard-resets the worktree and the current branch ref to that commit,
with no ancestry check of any kind. -/
def goMergeFastForward (st : GitState) (b : String) : GitState × Bool :=
  match lookupA st.refs (RefKey.remoteOrigin b) with
  | some h =>
      ({ st with refs := setA st.refs (RefKey.head st.headBranch) h,
                 worktreeRev := h, dirty := false }, true)
  | none => (st, false)

/-- Oracle for the two backend queries whose outcome the sync code
branches on but whose mechanism lies outside the ref store: the remote
default-branch lookup and the unpushed-commit check. -/
structure SyncEnv where
  syncEnabled : Bool
  remoteDefault : Except Unit String
  unpushed : Except Unit Bool

/-- Default-branch resolution step shared by both SyncDefaultBranch
variants: on lookup failure fall back to repo.CloneBranch, failing only
when that is empty as well. -/
def resolveDefaultBranch (res : Except Unit String) (cloneBranch : String) :
    Except Unit String :=
  match res with
  | .ok d => .ok d
  | .error _ => if cloneBranch ≠ "" then .ok cloneBranch else .error ()

structure SyncResult where
  state : GitState
  effects : List GitEffect
  wasUpdated : Bool
  errored : Bool
deriving DecidableEq, Repr

/-- Tail of SyncDefaultBranch after the hash capture: the wasUpdated
flag compares the default-branch ref hash before and after, returning
true optimistically when the ref cannot be read afterwards. -/
def syncFinish (st : GitState) (effs : List GitEffect) (before d : String) :
    SyncResult :=
  match lookupA st.refs (RefKey.head d) with
  | none => ⟨st, effs, true, false⟩
  | some after => ⟨st, effs, before != after, false⟩

/-- Fetch of the default branch followed by the merge (on the default
branch) or the bare ref update (on any other branch), shared by both
SyncDefaultBranch variants; `mergeImpl` is the MergeFastForward of the
backend in use. -/
def syncTail (mergeImpl : GitState → String → GitState × Bool) (d : String)
    (st : GitState) : SyncResult :=
  let before := (lookupA st.refs (RefKey.head d)).getD ""
  match lookupA st.remoteHeads d with
  | none => ⟨st, [GitEffect.fetch d], false, true⟩
  | some h =>
      let st1 : GitState := { st with refs := setA st.refs (RefKey.remoteOrigin d) h }
      if st.headBranch = d then
        match mergeImpl st1 d with
        | (st2, false) => ⟨st2, [GitEffect.fetch d, GitEffect.merge], false, true⟩
        | (st2, true) => syncFinish st2 [GitEffect.fetch d, GitEffect.merge] before d
      else
        match lookupA st1.refs (RefKey.remoteOrigin d) with
        | none => ⟨st1, [GitEffect.fetch d, GitEffect.refUpdate (RefKey.head d)],
            false, true⟩
        | some hh =>
            syncFinish { st1 with refs := setA st1.refs (RefKey.head d) hh }
              [GitEffect.fetch d, GitEffect.refUpdate (RefKey.head d)] before d

/-- Model of GitClient.SyncDefaultBranch (internal/git/sync.go,
subprocess backend).  Check order as in the source: enabled flag,
origin remote, default-branch resolution, current branch, dirty
worktree, unpushed commits (only when on the default branch), then
fetch and merge or ref update. -/
def syncDefaultBranchCLI (env : SyncEnv) (cloneBranch : String) (st : GitState) :
    SyncResult :=
  if env.syncEnabled = false then ⟨st, [], false, false⟩
  else match st.originURL with
  | none => ⟨st, [], false, false⟩
  | some _ =>
      match resolveDefaultBranch env.remoteDefault cloneBranch with
      | .error _ => ⟨st, [], false, true⟩
      | .ok d =>
          if st.dirty then ⟨st, [], false, false⟩
          else if st.headBranch = d then
            match env.unpushed with
            | .error _ => ⟨st, [], false, false⟩
            | .ok true => ⟨st, [], false, false⟩
            | .ok false => syncTail mergeFFOnly d st
          else syncTail mergeFFOnly d st

/-- Model of goGitClient.SyncDefaultBranch (unnamed/part_002, library
backend).  Same shape, but the dirty-worktree check precedes the
default-branch resolution and the merge is the hard-reset
goMergeFastForward. -/
def syncDefaultBranchGo (env : SyncEnv) (cloneBranch : String) (st : GitState) :
    SyncResult :=
  if env.syncEnabled = false then ⟨st, [], false, false⟩
  else match st.originURL with
  | none => ⟨st, [], false, false⟩
  | some _ =>
      if st.dirty then ⟨st, [], false, false⟩
      else
        match resolveDefaultBranch env.remoteDefault cloneBranch with
        | .error _ => ⟨st, [], false, true⟩
        | .ok d =>
            if st.headBranch = d then
              match env.unpushed with
              | .error _ => ⟨st, [], false, false⟩
              | .ok true => ⟨st, [], false, false⟩
              | .ok false => syncTail goMergeFastForward d st
            else syncTail goMergeFastForward d st

example :
    (syncDefaultBranchCLI ⟨true, Except.ok "main", Except.ok false⟩ "main"
      ⟨[(RefKey.head "main", "h1"), (RefKey.remoteOrigin "main", "h1")], "main", "h1",
        false, some "u", [("main", "h2")], [("h1", "h2")]⟩).wasUpdated = true := by
  decide

example :
    lookupA (syncDefaultBranchCLI ⟨true, Except.ok "main", Except.ok false⟩ "main"
      ⟨[(RefKey.head "main", "h1"), (RefKey.remoteOrigin "main", "h1")], "main", "h1",
        false, some "u", [("main", "h2")], [("h1", "h2")]⟩).state.refs
      (RefKey.head "main") = some "h2" := by
  decide

/-- C1: both SyncDefaultBranch variants return (false, nil) with no
fetch, merge or ref update, and with the repository state untouched,
when sync is not enabled, when no origin remote is configured, when the
working directory is dirty (given that default-branch resolution
succeeds, which in the subprocess variant runs first), or when the
current branch is the resolved default branch and the unpushed-commit
check either fails or reports unpushed commits. -/
theorem claim_C1_sync_skip_no_refs_move (env : SyncEnv) (cloneBranch : String)
    (st : GitState)
    (h : env.syncEnabled = false ∨ st.originURL = none
        ∨ ((∃ d, resolveDefaultBranch env.remoteDefault cloneBranch = Except.ok d)
            ∧ st.dirty = true)
        ∨ (resolveDefaultBranch env.remoteDefault cloneBranch
              = Except.ok st.headBranch
            ∧ st.dirty = false
            ∧ (env.unpushed = Except.error () ∨ env.unpushed = Except.ok true))) :
    syncDefaultBranchCLI env cloneBranch st = ⟨st, [], false, false⟩ ∧
    syncDefaultBranchGo env cloneBranch st = ⟨st, [], false, false⟩ := by
  rcases h with h | h | ⟨⟨d, hd⟩, hdirty⟩ | ⟨hd, hdirty, hup⟩
  · simp [syncDefaultBranchCLI, syncDefaultBranchGo, h]
  · by_cases he : env.syncEnabled = false
    · simp [syncDefaultBranchCLI, syncDefaultBranchGo, he]
    · simp [syncDefaultBranchCLI, syncDefaultBranchGo, he, h]
  · by_cases he : env.syncEnabled = false
    · simp [syncDefaultBranchCLI, syncDefaultBranchGo, he]
    · cases ho : st.originURL with
      | none => simp [syncDefaultBranchCLI, syncDefaultBranchGo, he, ho]
      | some u =>
          simp [syncDefaultBranchCLI, syncDefaultBranchGo, he, ho, hd, hdirty]
  · by_cases he : env.syncEnabled = false
    · simp [syncDefaultBranchCLI, syncDefaultBranchGo, he]
    · cases ho : st.originURL with
      | none => simp [syncDefaultBranchCLI, syncDefaultBranchGo, he, ho]
      | some u =>
          rcases hup with hup | hup <;>
            simp [syncDefaultBranchCLI, syncDefaultBranchGo, he, ho, hd, hdirty, hup]

theorem claim_C1_sync_skip_no_refs_move_witness :
    syncDefaultBranchCLI ⟨true, Except.ok "main", Except.ok false⟩ "main"
        ⟨[(RefKey.head "main", "h1")], "main", "h1", true, some "u", [("main", "h2")], []⟩
      = ⟨⟨[(RefKey.head "main", "h1")], "main", "h1", true, some "u",
          [("main", "h2")], []⟩, [], false, false⟩ ∧
    syncDefaultBranchGo ⟨true, Except.ok "main", Except.ok false⟩ "main"
        ⟨[(RefKey.head "main", "h1")], "main", "h1", true, some "u", [("main", "h2")], []⟩
      = ⟨⟨[(RefKey.head "main", "h1")], "main", "h1", true, some "u",
          [("main", "h2")], []⟩, [], false, false⟩ :=
  claim_C1_sync_skip_no_refs_move ⟨true, Except.ok "main", Except.ok false⟩ "main"
    ⟨[(RefKey.head "main", "h1")], "main", "h1", true, some "u", [("main", "h2")], []⟩
    (Or.inr (Or.inr (Or.inl ⟨⟨"main", rfl⟩, rfl⟩)))

/-- State of a repository whose current branch head c2 and the fetched
remote head c3 have diverged from a common ancestor c1: neither is an
ancestor of the other. -/
def divergedState : GitState :=
  ⟨[(RefKey.head "main", "c2"), (RefKey.remoteOrigin "main", "c3")], "main", "c2",
    false, some "u", [("main", "c3")], [("c1", "c2"), ("c1", "c3")]⟩

/-- C2: the claim (and the doc comment of goGitClient.MergeFastForward)
requires both backends to fail on any non-fast-forward merge without
moving the branch.  The subprocess backend does (git merge --ff-only),
but the library backend hard-resets to the remote commit with no
ancestry check: on a diverged repository it reports success and moves
refs/heads/main (and the worktree) to the remote commit, silently
discarding the local commit. -/
theorem claim_C2_library_hard_reset_not_ff_only :
    isAncestor divergedState "c2" "c3" = false ∧
    (goMergeFastForward divergedState "main").2 = true ∧
    lookupA (goMergeFastForward divergedState "main").1.refs (RefKey.head "main")
      = some "c3" ∧
    (goMergeFastForward divergedState "main").1.worktreeRev = "c3" ∧
    (mergeFFOnly divergedState "main").2 = false ∧
    (mergeFFOnly divergedState "main").1 = divergedState := by
  decide

/-- What a sync from a non-default branch must look like: no error, a
fetch followed by a bare ref update (no merge), the default-branch ref
and its remote-tracking ref at the fetched remote head, and the current
branch ref, the checked-out branch, the worktree and the dirty flag all
unchanged. -/
def syncFeatureSpec (st : GitState) (d h : String) (r : SyncResult) : Prop :=
  r.errored = false ∧
  r.effects = [GitEffect.fetch d, GitEffect.refUpdate (RefKey.head d)] ∧
  lookupA r.state.refs (RefKey.head d) = some h ∧
  lookupA r.state.refs (RefKey.remoteOrigin d) = some h ∧
  r.state.headBranch = st.headBranch ∧
  r.state.worktreeRev = st.worktreeRev ∧
  r.state.dirty = st.dirty ∧
  lookupA r.state.refs (RefKey.head st.headBranch)
    = lookupA st.refs (RefKey.head st.headBranch)

theorem syncTail_feature (impl : GitState → String → GitState × Bool)
    (d : String) (st : GitState) (h : String)
    (hne : st.headBranch ≠ d) (hrh : lookupA st.remoteHeads d = some h) :
    syncFeatureSpec st d h (syncTail impl d st) := by
  have hro : RefKey.remoteOrigin d ≠ RefKey.head d := by simp
  have hhd : RefKey.head st.headBranch ≠ RefKey.head d := by simp [hne]
  have hhro : RefKey.head st.headBranch ≠ RefKey.remoteOrigin d := by simp
  have hdro : RefKey.head d ≠ RefKey.remoteOrigin d := by simp
  simp only [syncTail, hrh]
  rw [if_neg hne]
  rw [show lookupA (setA st.refs (RefKey.remoteOrigin d) h) (RefKey.remoteOrigin d)
      = some h from lookupA_setA_same _ _ _]
  simp only [syncFinish, lookupA_setA_same]
  refine ⟨rfl, rfl, lookupA_setA_same _ _ _, ?_, rfl, rfl, rfl, ?_⟩
  · rw [lookupA_setA_other _ _ _ _ hro, lookupA_setA_same]
  · rw [lookupA_setA_other _ _ _ _ hhd, lookupA_setA_other _ _ _ _ hhro]

/-- C6: from a repository checked out on a branch other than the remote
default branch, with sync enabled, origin configured, a clean worktree
and the default branch advertised by the remote, both SyncDefaultBranch
variants succeed by fetching and then moving refs/heads/(default) to
the fetched remote commit through a bare ref update: no merge happens
and the current branch ref, the checked-out branch, the worktree and
the dirty flag are unchanged. -/
theorem claim_C6_sync_feature_branch (env : SyncEnv) (cloneBranch : String)
    (st : GitState) (d h u : String)
    (hen : env.syncEnabled = true) (ho : st.originURL = some u)
    (hdb : env.remoteDefault = Except.ok d) (hdirty : st.dirty = false)
    (hne : st.headBranch ≠ d) (hrh : lookupA st.remoteHeads d = some h) :
    syncFeatureSpec st d h (syncDefaultBranchCLI env cloneBranch st) ∧
    syncFeatureSpec st d h (syncDefaultBranchGo env cloneBranch st) := by
  have hresolve : resolveDefaultBranch env.remoteDefault cloneBranch = Except.ok d := by
    simp [resolveDefaultBranch, hdb]
  constructor
  · have : syncDefaultBranchCLI env cloneBranch st = syncTail mergeFFOnly d st := by
      simp [syncDefaultBranchCLI, hen, ho, hresolve, hdirty, hne]
    rw [this]
    exact syncTail_feature mergeFFOnly d st h hne hrh
  · have : syncDefaultBranchGo env cloneBranch st = syncTail goMergeFastForward d st := by
      simp [syncDefaultBranchGo, hen, ho, hresolve, hdirty, hne]
    rw [this]
    exact syncTail_feature goMergeFastForward d st h hne hrh

theorem claim_C6_sync_feature_branch_witness :
    syncFeatureSpec
        ⟨[(RefKey.head "feature", "hf"), (RefKey.head "main", "h1")], "feature", "hf",
          false, some "u", [("main", "h2")], []⟩ "main" "h2"
        (syncDefaultBranchCLI ⟨true, Except.ok "main", Except.ok false⟩ "main"
          ⟨[(RefKey.head "feature", "hf"), (RefKey.head "main", "h1")], "feature", "hf",
            false, some "u", [("main", "h2")], []⟩) ∧
    syncFeatureSpec
        ⟨[(RefKey.head "feature", "hf"), (RefKey.head "main", "h1")], "feature", "hf",
          false, some "u", [("main", "h2")], []⟩ "main" "h2"
        (syncDefaultBranchGo ⟨true, Except.ok "main", Except.ok false⟩ "main"
          ⟨[(RefKey.head "feature", "hf"), (RefKey.head "main", "h1")], "feature", "hf",
            false, some "u", [("main", "h2")], []⟩) :=
  claim_C6_sync_feature_branch ⟨true, Except.ok "main", Except.ok false⟩ "main"
    ⟨[(RefKey.head "feature", "hf"), (RefKey.head "main", "h1")], "feature", "hf",
      false, some "u", [("main", "h2")], []⟩ "main" "h2" "u"
    rfl rfl rfl rfl (by decide) (by decide)

/-! ## Repo-name collisions and path planning (cmd, unnamed/part_004)

hasRepoNameCollisions is embedded from the source.  The step that turns
a collided name into a disambiguated directory name lives in the
repository processor, which is not among the sources (only its callers
and tests are), so that step is modelled from the words of the spec.
-/

def lookupB : List (String × Bool) → String → Option Bool
  | [], _ => none
  | (k, v) :: rest, key => if k = key then some v else lookupB rest key

def setB : List (String × Bool) → String → Bool → List (String × Bool)
  | [], key, v => [(key, v)]
  | (k, w) :: rest, key, v =>
      if k = key then (k, v) :: rest else (k, w) :: setB rest key v

def containsKeyB (m : List (String × Bool)) (n : String) : Bool :=
  (lookupB m n).isSome

/-- Snippets and wikis are skipped by the collision scan. -/
def eligible (r : CmdRepo) : Bool := !r.isGitLabSnippet && !r.isWiki

/-- Fold of hasRepoNameCollisions over the kept set: a name already in
the map is marked collided (true) and raises the overall flag, a fresh
name enters as false. -/
def buildCollisions : List CmdRepo → List (String × Bool) → Bool →
    List (String × Bool) × Bool
  | [], m, f => (m, f)
  | r :: rest, m, f =>
      if eligible r then
        if containsKeyB m r.name then buildCollisions rest (setB m r.name true) true
        else buildCollisions rest (setB m r.name false) f
      else buildCollisions rest m f

structure PlannerConfig where
  gitlabToken : String
  preserveDir : Bool

/-- Model of hasRepoNameCollisions (unnamed/part_004): the scan is a
no-op without a GitLab token or with directory preservation on. -/
def hasRepoNameCollisions (cfg : PlannerConfig) (repos : List CmdRepo) :
    List (String × Bool) × Bool :=
  if cfg.gitlabToken = "" then ([], false)
  else if cfg.preserveDir then ([], false)
  else buildCollisions repos [] false

/-- Namespace-derived directory name for a collided repo: the
normalised namespace path with separators turned into underscores, cut
by trimCollisionFilename. -/
def collisionName (path : String) : Option String :=
  (trimCollisionFilename
      ((normalizePath path).toList.map fun c => if c = '/' then '_' else c)).map
    String.mk

/-- Modelled from the spec: the per-repository destination naming done
by the repository processor, which is not among the sources.  Wikis
carry the .wiki suffix; snippets keep the pipeline but are never
disambiguated (their id suffix is irrelevant to every claim and is
omitted); a non-snippet non-wiki repo whose short name is marked
collided receives the namespace-derived name, every other repo keeps
its short name. -/
def planSlug (collisions : List (String × Bool)) (r : CmdRepo) : Option String :=
  if r.isWiki then some (r.name ++ ".wiki")
  else if r.isGitLabSnippet then some r.name
  else
    match lookupB collisions r.name with
    | some true => collisionName r.path
    | _ => some r.name

/-- Destination names of the whole kept set, in order. -/
def planHostPaths (cfg : PlannerConfig) (repos : List CmdRepo) : List (Option String) :=
  repos.map (planSlug (hasRepoNameCollisions cfg repos).1)

example :
    planHostPaths ⟨"tok", false⟩
      [⟨"app", "g1/app", false, false⟩, ⟨"app", "g2/app", false, false⟩]
      = [some "g1_app", some "g2_app"] := by decide

theorem lookupB_setB_same (m : List (String × Bool)) (k : String) (v : Bool) :
    lookupB (setB m k v) k = some v := by
  induction m with
  | nil => simp [setB, lookupB]
  | cons p rest ih =>
      by_cases h : p.1 = k
      · simp [setB, h, lookupB]
      · simp [setB, h, lookupB, ih]

theorem lookupB_setB_other (m : List (String × Bool)) (k k' : String) (v : Bool)
    (h : k' ≠ k) :
    lookupB (setB m k v) k' = lookupB m k' := by
  induction m with
  | nil => simp [setB, lookupB, Ne.symm h]
  | cons p rest ih =>
      by_cases hp : p.1 = k
      · simp [setB, hp, lookupB, Ne.symm h]
      · simp [setB, hp, lookupB, ih]

theorem containsKeyB_setB (m : List (String × Bool)) (k n : String) (v : Bool)
    (h : containsKeyB m n = true) : containsKeyB (setB m k v) n = true := by
  by_cases hk : n = k
  · subst hk
    simp [containsKeyB, lookupB_setB_same]
  · simpa [containsKeyB, lookupB_setB_other m k n v hk] using h

theorem buildCollisions_preserve_true :
    ∀ (repos : List CmdRepo) (m : List (String × Bool)) (f : Bool) (n : String),
      lookupB m n = some true →
      lookupB (buildCollisions repos m f).1 n = some true := by
  intro repos
  induction repos with
  | nil => intro m f n h; simpa [buildCollisions] using h
  | cons r rest ih =>
      intro m f n h
      simp only [buildCollisions]
      by_cases he : eligible r
      · rw [if_pos he]
        by_cases hc : containsKeyB m r.name
        · rw [if_pos hc]
          by_cases hn : r.name = n
          · subst hn
            exact ih _ _ _ (lookupB_setB_same m r.name true)
          · exact ih _ _ _ (by rw [lookupB_setB_other m r.name n true (Ne.symm hn)]; exact h)
        · rw [if_neg hc]
          have hn : r.name ≠ n := by
            intro he2
            apply hc
            subst he2
            simp [containsKeyB, h]
          exact ih _ _ _ (by rw [lookupB_setB_other m r.name n false (Ne.symm hn)]; exact h)
      · rw [if_neg he]
        exact ih _ _ _ h

theorem buildCollisions_hit :
    ∀ (repos : List CmdRepo) (m : List (String × Bool)) (f : Bool) (n : String),
      containsKeyB m n = true →
      (∃ r, r ∈ repos ∧ eligible r = true ∧ r.name = n) →
      lookupB (buildCollisions repos m f).1 n = some true := by
  intro repos
  induction repos with
  | nil =>
      intro m f n _ hex
      rcases hex with ⟨r, hr, _, _⟩
      exact absurd hr (List.not_mem_nil r)
  | cons r rest ih =>
      intro m f n hc hex
      simp only [buildCollisions]
      by_cases he : eligible r
      · rw [if_pos he]
        by_cases hcr : containsKeyB m r.name
        · rw [if_pos hcr]
          by_cases hn : r.name = n
          · subst hn
            exact buildCollisions_preserve_true rest _ true r.name
              (lookupB_setB_same m r.name true)
          · rcases hex with ⟨r', hr', her', hnr'⟩
            rcases List.mem_cons.mp hr' with hr' | hr'
            · exact absurd (hr' ▸ hnr') hn
            · exact ih _ _ n (containsKeyB_setB m r.name n true hc)
                ⟨r', hr', her', hnr'⟩
        · rw [if_neg hcr]
          have hn : r.name ≠ n := by
            intro he2
            exact hcr (he2 ▸ hc)
          rcases hex with ⟨r', hr', her', hnr'⟩
          rcases List.mem_cons.mp hr' with hr' | hr'
          · exact absurd (hr' ▸ hnr') hn
          · exact ih _ _ n (containsKeyB_setB m r.name n false hc)
              ⟨r', hr', her', hnr'⟩
      · rw [if_neg he]
        rcases hex with ⟨r', hr', her', hnr'⟩
        rcases List.mem_cons.mp hr' with hr' | hr'
        · exact absurd (hr' ▸ her') (by simpa using he)
        · exact ih _ _ n hc ⟨r', hr', her', hnr'⟩

theorem buildCollisions_twice :
    ∀ (repos : List CmdRepo) (m : List (String × Bool)) (f : Bool) (r1 r2 : CmdRepo),
      r1 ∈ repos → r2 ∈ repos → r1 ≠ r2 →
      eligible r1 = true → eligible r2 = true → r1.name = r2.name →
      lookupB (buildCollisions repos m f).1 r1.name = some true := by
  intro repos
  induction repos with
  | nil =>
      intro m f r1 r2 h1 _ _ _ _ _
      exact absurd h1 (List.not_mem_nil r1)
  | cons r rest ih =>
      intro m f r1 r2 h1 h2 hne he1 he2 hname
      simp only [buildCollisions]
      rcases List.mem_cons.mp h1 with hc1 | hc1
      · subst hc1
        rw [if_pos he1]
        have h2' : r2 ∈ rest := by
          rcases List.mem_cons.mp h2 with hc2 | hc2
          · exact absurd hc2.symm hne
          · exact hc2
        by_cases hcr : containsKeyB m r1.name
        · rw [if_pos hcr]
          exact buildCollisions_preserve_true rest _ true r1.name
            (lookupB_setB_same m r1.name true)
        · rw [if_neg hcr]
          exact buildCollisions_hit rest _ f r1.name
            (by simp [containsKeyB, lookupB_setB_same])
            ⟨r2, h2', he2, hname.symm⟩
      · rcases List.mem_cons.mp h2 with hc2 | hc2
        · subst hc2
          rw [if_pos he2]
          by_cases hcr : containsKeyB m r2.name
          · rw [if_pos hcr]
            rw [hname]
            exact buildCollisions_preserve_true rest _ true r2.name
              (lookupB_setB_same m r2.name true)
          · rw [if_neg hcr]
            rw [hname]
            exact buildCollisions_hit rest _ f r2.name
              (by simp [containsKeyB, lookupB_setB_same])
              ⟨r1, hc1, he1, hname.symm ▸ rfl⟩
        · by_cases he : eligible r
          · rw [if_pos he]
            by_cases hcr : containsKeyB m r.name
            · rw [if_pos hcr]
              exact ih _ _ r1 r2 hc1 hc2 hne he1 he2 hname
            · rw [if_neg hcr]
              exact ih _ _ r1 r2 hc1 hc2 hne he1 he2 hname
          · rw [if_neg he]
            exact ih _ _ r1 r2 hc1 hc2 hne he1 he2 hname

theorem trimCollisionFilename_short (l : List Char) (h : l.length ≤ 248) :
    trimCollisionFilename l = some l := by
  simp [trimCollisionFilename, Nat.not_lt.mpr h]

/-- C5: the claim also asserts that after path planning the number of
distinct destination names equals the number of kept repos.  That count
equality fails: a repo whose plain short name coincides with the
namespace-derived name of a collided repo ends up sharing its
destination.  Here app in g1 and app in g2 collide and become g1_app
and g2_app, while a third repo is itself plainly named g1_app; three
kept repos produce two distinct destinations.  The same-name pair
still receives distinct names (last conjunct). -/
theorem claim_C5_counterexample :
    ¬ (planHostPaths ⟨"tok", false⟩
        [⟨"app", "g1/app", false, false⟩, ⟨"app", "g2/app", false, false⟩,
          ⟨"g1_app", "g3/g1_app", false, false⟩]).Nodup ∧
    ([⟨"app", "g1/app", false, false⟩, ⟨"app", "g2/app", false, false⟩,
        ⟨"g1_app", "g3/g1_app", false, false⟩] : List CmdRepo).length = 3 ∧
    planHostPaths ⟨"tok", false⟩
        [⟨"app", "g1/app", false, false⟩, ⟨"app", "g2/app", false, false⟩,
          ⟨"g1_app", "g3/g1_app", false, false⟩]
      = [some "g1_app", some "g2_app", some "g1_app"] := by
  decide

/-- C5 (amended, planner modelled from the spec): with a GitLab token
present and directory preservation off, any two distinct kept repos
that are neither wikis nor snippets and share the same short name are
assigned distinct destination names, provided their namespace paths
(normalised, separators replaced by underscores) differ and fit within
the 248-character trim limit.  The full count equality of the original
claim does not hold (see the counterexample). -/
theorem claim_C5_amended (cfg : PlannerConfig) (repos : List CmdRepo)
    (r1 r2 : CmdRepo)
    (htok : ¬ cfg.gitlabToken = "") (hpd : cfg.preserveDir = false)
    (h1 : r1 ∈ repos) (h2 : r2 ∈ repos)
    (he1 : eligible r1 = true) (he2 : eligible r2 = true)
    (hname : r1.name = r2.name)
    (hlen1 : ((normalizePath r1.path).toList.map
        fun c => if c = '/' then '_' else c).length ≤ 248)
    (hlen2 : ((normalizePath r2.path).toList.map
        fun c => if c = '/' then '_' else c).length ≤ 248)
    (hpne : ((normalizePath r1.path).toList.map fun c => if c = '/' then '_' else c)
        ≠ ((normalizePath r2.path).toList.map fun c => if c = '/' then '_' else c)) :
    planSlug (hasRepoNameCollisions cfg repos).1 r1
      ≠ planSlug (hasRepoNameCollisions cfg repos).1 r2 := by
  have hr12 : r1 ≠ r2 := by
    intro he
    exact hpne (by rw [he])
  have hmap : (hasRepoNameCollisions cfg repos).1 = (buildCollisions repos [] false).1 := by
    simp [hasRepoNameCollisions, htok, hpd]
  have hcol1 : lookupB (hasRepoNameCollisions cfg repos).1 r1.name = some true := by
    rw [hmap]
    exact buildCollisions_twice repos [] false r1 r2 h1 h2 hr12 he1 he2 hname
  have hcol2 : lookupB (hasRepoNameCollisions cfg repos).1 r2.name = some true := by
    rw [← hname]
    exact hcol1
  have hw1 : r1.isWiki = false := by
    simp [eligible] at he1
    exact he1.2
  have hs1 : r1.isGitLabSnippet = false := by
    simp [eligible] at he1
    exact he1.1
  have hw2 : r2.isWiki = false := by
    simp [eligible] at he2
    exact he2.2
  have hs2 : r2.isGitLabSnippet = false := by
    simp [eligible] at he2
    exact he2.1
  simp only [planSlug, hw1, hs1, hw2, hs2, Bool.false_eq_true, if_false,
    hcol1, hcol2, collisionName, trimCollisionFilename_short _ hlen1,
    trimCollisionFilename_short _ hlen2, Option.map_some]
  intro hcon
  apply hpne
  have h2' := Option.some.inj hcon
  simpa [String.ext_iff] using h2'

theorem claim_C5_amended_witness :
    planSlug (hasRepoNameCollisions ⟨"tok", false⟩
        [⟨"app", "g1/app", false, false⟩, ⟨"app", "g2/app", false, false⟩]).1
      ⟨"app", "g1/app", false, false⟩
      ≠ planSlug (hasRepoNameCollisions ⟨"tok", false⟩
        [⟨"app", "g1/app", false, false⟩, ⟨"app", "g2/app", false, false⟩]).1
      ⟨"app", "g2/app", false, false⟩ :=
  claim_C5_amended ⟨"tok", false⟩
    [⟨"app", "g1/app", false, false⟩, ⟨"app", "g2/app", false, false⟩]
    ⟨"app", "g1/app", false, false⟩ ⟨"app", "g2/app", false, false⟩
    (by decide) rfl (by decide) (by decide) rfl rfl rfl
    (by decide) (by decide) (by decide)

/-! ## Stats recorder (writeGhorgStats, cmd, unnamed/part_004)

The filesystem is an association list from absolute path to file
content.  Opening with O_APPEND|O_CREATE and writing is appending to
the entry, creating it empty first when absent.  The sha256 hex digest
of the header is an opaque parameter of the model: the claims concern
which file is written and how, not the digest arithmetic. -/

/-- Model of readFirstLine: the content up to the first newline. -/
def firstLine (s : String) : String :=
  String.mk (s.toList.takeWhile fun c => c ≠ '\n')

/-- Append to a file, creating it when absent. -/
def fsAppend (fs : List (String × String)) (p s : String) :
    List (String × String) :=
  setA fs p (((lookupA fs p).getD "") ++ s)

/-- Name of the side file started on header drift: it lives in the
clone directory and embeds the digest of the current header. -/
def sideFilePath (hashHex : String → String) (cloneDir header : String) : String :=
  goJoin cloneDir ("ghorg_stats_new_header_" ++ hashHex header ++ ".csv")

/-- Model of writeGhorgStats: create the stats file with header and row
when absent; on header drift create or extend the digest-named side
file with header then row, leaving the stats file alone; otherwise
append the row to the stats file. -/
def writeGhorgStats (hashHex : String → String)
    (statsFilePath cloneDir header row : String)
    (fs : List (String × String)) : List (String × String) :=
  match lookupA fs statsFilePath with
  | none => fsAppend (fsAppend fs statsFilePath header) statsFilePath row
  | some content =>
      if firstLine content ++ "\n" ≠ header then
        let side := sideFilePath hashHex cloneDir header
        fsAppend (fsAppend fs side header) side row
      else fsAppend fs statsFilePath row

/-- C10: when the stats file exists and its first line differs from the
current header, the row goes to the side file named after the digest of
the new header, created with the header first (or extended when it
already exists), and the old stats file is byte-for-byte unchanged, as
is every other file; when the first line matches, the row is appended
to the stats file itself and nothing else changes. -/
theorem claim_C10_stats_header_drift (hashHex : String → String)
    (statsFilePath cloneDir header row content : String)
    (fs : List (String × String))
    (hex : lookupA fs statsFilePath = some content)
    (hside : sideFilePath hashHex cloneDir header ≠ statsFilePath) :
    (firstLine content ++ "\n" ≠ header →
      lookupA (writeGhorgStats hashHex statsFilePath cloneDir header row fs)
          statsFilePath = some content ∧
      lookupA (writeGhorgStats hashHex statsFilePath cloneDir header row fs)
          (sideFilePath hashHex cloneDir header)
        = some (((lookupA fs (sideFilePath hashHex cloneDir header)).getD "")
            ++ header ++ row) ∧
      (∀ p, p ≠ statsFilePath → p ≠ sideFilePath hashHex cloneDir header →
        lookupA (writeGhorgStats hashHex statsFilePath cloneDir header row fs) p
          = lookupA fs p)) ∧
    (firstLine content ++ "\n" = header →
      lookupA (writeGhorgStats hashHex statsFilePath cloneDir header row fs)
          statsFilePath = some (content ++ row) ∧
      (∀ p, p ≠ statsFilePath →
        lookupA (writeGhorgStats hashHex statsFilePath cloneDir header row fs) p
          = lookupA fs p)) := by
  constructor
  · intro hdrift
    have hw : writeGhorgStats hashHex statsFilePath cloneDir header row fs
        = fsAppend (fsAppend fs (sideFilePath hashHex cloneDir header) header)
            (sideFilePath hashHex cloneDir header) row := by
      simp only [writeGhorgStats, hex]
      rw [if_pos hdrift]
    rw [hw]
    refine ⟨?_, ?_, ?_⟩
    · simp only [fsAppend]
      rw [lookupA_setA_other _ _ _ _ (Ne.symm hside),
        lookupA_setA_other _ _ _ _ (Ne.symm hside)]
      exact hex
    · simp only [fsAppend]
      rw [lookupA_setA_same, lookupA_setA_same]
      simp
    · intro p hp hps
      simp only [fsAppend]
      rw [lookupA_setA_other _ _ _ _ hps, lookupA_setA_other _ _ _ _ hps]
  · intro hmatch
    have hw : writeGhorgStats hashHex statsFilePath cloneDir header row fs
        = fsAppend fs statsFilePath row := by
      simp only [writeGhorgStats, hex]
      rw [if_neg (by simp [hmatch])]
    rw [hw]
    constructor
    · simp only [fsAppend]
      rw [lookupA_setA_same, hex]
      simp
    · intro p hp
      simp only [fsAppend]
      rw [lookupA_setA_other _ _ _ _ hp]

theorem claim_C10_stats_header_drift_witness :
    lookupA (writeGhorgStats (fun _ => "abc") "/r/_ghorg_stats.csv" "/r"
        "h2\n" "row2\n" [("/r/_ghorg_stats.csv", "h1\nrow1\n")])
      "/r/_ghorg_stats.csv" = some "h1\nrow1\n" ∧
    lookupA (writeGhorgStats (fun _ => "abc") "/r/_ghorg_stats.csv" "/r"
        "h2\n" "row2\n" [("/r/_ghorg_stats.csv", "h1\nrow1\n")])
      (sideFilePath (fun _ => "abc") "/r" "h2\n")
      = some (((lookupA [("/r/_ghorg_stats.csv", "h1\nrow1\n")]
          (sideFilePath (fun _ => "abc") "/r" "h2\n")).getD "")
        ++ "h2\n" ++ "row2\n") :=
  ⟨((claim_C10_stats_header_drift (fun _ => "abc") "/r/_ghorg_stats.csv" "/r"
      "h2\n" "row2\n" "h1\nrow1\n" [("/r/_ghorg_stats.csv", "h1\nrow1\n")]
      (by decide) (by decide)).1 (by decide)).1,
   ((claim_C10_stats_header_drift (fun _ => "abc") "/r/_ghorg_stats.csv" "/r"
      "h2\n" "row2\n" "h1\nrow1\n" [("/r/_ghorg_stats.csv", "h1\nrow1\n")]
      (by decide) (by decide)).1 (by decide)).2.1⟩
